import Mathlib

/-!
Verification of the bridgecraft core logic: the structural validator and
scoring function (`src/utils/gameLogic.ts`), the material catalog and beam
cost function (`src/utils/materials.ts`), the beam-creation / undo / redo /
save-restore handlers of `GameCanvas.tsx`, and the budget handlers of
`App.tsx`.

Modelling conventions:
* JavaScript numbers are modelled as rationals (`ℚ`); `Math.ceil` is `Int.ceil`
  and `Math.round` is Mathlib's `round` (both round halves toward +∞, matching
  JS `Math.round`).  This model is exact except where the source divides by
  zero (noted at the relevant claim).
* The human-readable message strings of `BridgeIssue` are abstracted as a
  `Msg` tag carrying the interpolated count; each distinct template string in
  the source maps to a distinct constructor.
* `checkPathConnection`'s while-loop is embedded as a fuel-indexed recursion;
  the fuel is a concrete bound (number of distinct mentioned node ids times
  queue growth per step) proved sufficient by the completeness theorem below.
* Snapshot deep copies (`cloneNodes`/`cloneBeams` object spreads) are value
  copies, which is automatic for Lean values; the `id`/`label`/`timestamp`
  metadata of `SavedDesign` (derived from `Date.now()`) never influences the
  behaviour modelled here and is omitted from `Snapshot`.
-/

namespace Bridgecraft

/-- Material kinds from `src/types/game.ts` (`MaterialType`). -/
inductive MaterialType where
  | wood
  | steel
  | cable
deriving DecidableEq, Repr

/-- Material record from `src/types/game.ts`; colour and name are omitted as
purely cosmetic. -/
structure Material where
  cost : ℚ
  density : ℚ
  elasticity : ℚ
  tensionStrength : ℚ
  compressionStrength : ℚ
deriving DecidableEq, Repr

/-- Material catalog from `src/utils/materials.ts` (`MATERIALS`). -/
def MATERIALS : MaterialType → Material
  | .wood => ⟨10, 1/2, 3/10, 40, 35⟩
  | .steel => ⟨50, 2, 1/10, 250, 250⟩
  | .cable => ⟨30, 1/5, 1/20, 200, 5⟩

/-- Node record from `src/types/game.ts`; the optional `isAnchor` boolean is
modelled as a `Bool` (absent = `false`). -/
structure Node where
  id : String
  x : ℚ
  y : ℚ
  isFixed : Bool
  isAnchor : Bool
deriving DecidableEq, Repr

/-- Beam record from `src/types/game.ts`. -/
structure Beam where
  id : String
  startNodeId : String
  endNodeId : String
  material : MaterialType
  length : ℚ
  stress : ℚ
  maxStress : ℚ
deriving DecidableEq, Repr

/-- Vehicle record from `src/types/game.ts`; `validateBridge` only inspects
the list length. -/
structure Vehicle where
  id : String
  x : ℚ
  y : ℚ
  weight : ℚ
deriving DecidableEq, Repr

/-- Message tag for a `BridgeIssue`.  Each constructor stands for one of the
five distinct template strings pushed by `validateBridge`; the numeric
parameter is the count interpolated into the template. -/
inductive Msg where
  | noBeams
  | connectAnchors
  | overstress (count : Nat)
  | unsupported (count : Nat)
  | noVehicles
deriving DecidableEq, Repr

/-- Issue record from `src/utils/gameLogic.ts` (`BridgeIssue`); `nodeIds` and
`beamIds` are optional fields, absent = `none`. -/
structure BridgeIssue where
  message : Msg
  nodeIds : Option (List String)
  beamIds : Option (List String)
deriving DecidableEq, Repr

/-- Validation report from `src/utils/gameLogic.ts` (`BridgeValidation`). -/
structure BridgeValidation where
  isValid : Bool
  errors : List BridgeIssue
  warnings : List BridgeIssue
deriving DecidableEq, Repr

/-- Other endpoint of a beam relative to `currentId`, as computed inside the
BFS loop of `checkPathConnection`:
`beam.startNodeId === currentId ? beam.endNodeId : beam.startNodeId`. -/
def otherEnd (currentId : String) (b : Beam) : String :=
  if b.startNodeId = currentId then b.endNodeId else b.startNodeId

/-- Beams touching `currentId`, as filtered inside `checkPathConnection`. -/
def connectedBeams (beams : List Beam) (currentId : String) : List Beam :=
  beams.filter (fun b => decide (b.startNodeId = currentId ∨ b.endNodeId = currentId))

/-- Body of the `while (queue.length > 0)` loop of `checkPathConnection`
(`src/utils/gameLogic.ts` lines 82-110), indexed by fuel.  Each iteration
shifts `currentId` off the queue, succeeds if it is `endId`, skips it if
already visited, and otherwise marks it visited and enqueues the unvisited
other endpoints of all beams touching it. -/
def bfsAux (beams : List Beam) (endId : String) :
    Nat → List String → List String → Bool
  | 0, _, _ => false
  | _ + 1, _, [] => false
  | fuel + 1, visited, currentId :: queue =>
    if currentId = endId then true
    else if currentId ∈ visited then bfsAux beams endId fuel visited queue
    else
      let visited' := currentId :: visited
      let newIds := ((connectedBeams beams currentId).map (otherEnd currentId)).filter
        (fun i => decide (i ∉ visited'))
      bfsAux beams endId fuel visited' (queue ++ newIds)

/-- Distinct node ids mentioned by the search: the start id together with all
beam endpoints.  Only these ids can ever enter the queue or visited set. -/
def relevantIds (beams : List Beam) (startId : String) : List String :=
  (startId :: beams.flatMap (fun b => [b.startNodeId, b.endNodeId])).dedup

/-- Fuel bound for the BFS: each loop iteration consumes one queue entry, and
at most `relevantIds.length` iterations enqueue anything (at most
`beams.length` entries each). -/
def bfsFuel (beams : List Beam) (startId : String) : Nat :=
  (relevantIds beams startId).length * (beams.length + 1) + 1

/-- Embedding of `checkPathConnection` from `src/utils/gameLogic.ts`: BFS over
the beam-induced undirected adjacency graph from `startId`, succeeding when
`endId` is dequeued. -/
def checkPathConnection (beams : List Beam) (startId endId : String) : Bool :=
  bfsAux beams endId (bfsFuel beams startId) [] [startId]

/-- Anchor nodes, as filtered twice inside `validateBridge`
(`nodes.filter(node => node.isAnchor)`). -/
def anchorNodes (nodes : List Node) : List Node := nodes.filter (·.isAnchor)

/-- No-beams rule of `validateBridge` (lines 22-29): the single error pushed
when the beam list is empty, referencing all anchor node ids. -/
def noBeamsErrors (nodes : List Node) (beams : List Beam) : List BridgeIssue :=
  if beams.length = 0 then
    [⟨Msg.noBeams, some ((anchorNodes nodes).map (·.id)), none⟩]
  else []

/-- Connectivity rule of `validateBridge` (lines 31-44): when there are at
least two anchors, warn unless a BFS connects the first anchor to the last. -/
def connectivityWarnings (nodes : List Node) (beams : List Beam) : List BridgeIssue :=
  if 2 ≤ (anchorNodes nodes).length then
    match (anchorNodes nodes).head?, (anchorNodes nodes).getLast? with
    | some startAnchor, some endAnchor =>
      if checkPathConnection beams startAnchor.id endAnchor.id then []
      else [⟨Msg.connectAnchors, some [startAnchor.id, endAnchor.id], none⟩]
    | _, _ => []
  else []

/-- Critically stressed beams, as filtered inside `validateBridge`
(`beam.stress > beam.maxStress * 0.9`). -/
def criticalBeams (beams : List Beam) : List Beam :=
  beams.filter (fun beam => decide (beam.maxStress * (9/10) < beam.stress))

/-- Overstress rule of `validateBridge` (lines 46-53): one aggregated warning
listing all critically stressed beam ids and their count. -/
def overstressWarnings (beams : List Beam) : List BridgeIssue :=
  if 0 < (criticalBeams beams).length then
    [⟨Msg.overstress (criticalBeams beams).length, none,
      some ((criticalBeams beams).map (·.id))⟩]
  else []

/-- Non-fixed nodes that are no beam's endpoint, as computed inside
`validateBridge` via the `supportedNodes` set (lines 55-64). -/
def unsupportedNodes (nodes : List Node) (beams : List Beam) : List Node :=
  nodes.filter (fun node =>
    decide (¬ node.isFixed = true ∧
      ¬ ∃ beam ∈ beams, beam.startNodeId = node.id ∨ beam.endNodeId = node.id))

/-- Unsupported-node rule of `validateBridge` (lines 66-71). -/
def unsupportedWarnings (nodes : List Node) (beams : List Beam) : List BridgeIssue :=
  if 0 < (unsupportedNodes nodes beams).length then
    [⟨Msg.unsupported (unsupportedNodes nodes beams).length,
      some ((unsupportedNodes nodes beams).map (·.id)), none⟩]
  else []

/-- No-vehicles rule of `validateBridge` (lines 73-77). -/
def vehicleWarnings (vehicles : List Vehicle) : List BridgeIssue :=
  if vehicles.length = 0 then [⟨Msg.noVehicles, none, none⟩] else []

/-- Embedding of `validateBridge` from `src/utils/gameLogic.ts` lines 15-80.
The five rules run in source order (the rule blocks above); only the no-beams
rule touches `isValid` and `errors`, the rest append to `warnings`. -/
def validateBridge (nodes : List Node) (beams : List Beam) (vehicles : List Vehicle) :
    BridgeValidation :=
  ⟨if beams.length = 0 then false else true,
    noBeamsErrors nodes beams,
    connectivityWarnings nodes beams ++ overstressWarnings beams
      ++ unsupportedWarnings nodes beams ++ vehicleWarnings vehicles⟩

/-- Embedding of `calculateBridgeScore` from `src/utils/gameLogic.ts` lines
112-141: base 100, plus budget-efficiency bonus, plus 10 per beam with
stress ratio strictly inside (0.3, 0.8), plus 50 per vehicle crossed,
rounded.  Note the source has no guard on the division by `totalBudget`;
this rational model is exact for `totalBudget ≠ 0`. -/
def calculateBridgeScore (beams : List Beam) (budgetUsed totalBudget vehiclesCrossed : ℚ) :
    ℤ :=
  let score : ℚ := 100
  let budgetEfficiency := max 0 ((totalBudget - budgetUsed) / totalBudget)
  let score := score + budgetEfficiency * 200
  let materialBonus := beams.foldl (fun bonus beam =>
    let efficiency := beam.stress / beam.maxStress
    if 3/10 < efficiency ∧ efficiency < 8/10 then bonus + 10 else bonus) (0 : ℚ)
  let score := score + materialBonus
  let score := score + vehiclesCrossed * 50
  round score

/-- Embedding of `calculateBeamCost` from `src/utils/materials.ts` lines
45-48: `Math.ceil(length * materialData.cost)` — note there is no division
by 100 in this function. -/
def calculateBeamCost (length : ℚ) (material : MaterialType) : ℚ :=
  ((⌈length * (MATERIALS material).cost⌉ : ℤ) : ℚ)

/-- Cost formula of the legacy standalone `game.js` (`createBeam`):
`Math.ceil(length * this.materials[material].cost / 100)` — this one does
divide by 100. -/
def legacyBeamCost (length : ℚ) (material : MaterialType) : ℚ :=
  ((⌈length * (MATERIALS material).cost / 100⌉ : ℤ) : ℚ)

/-- Embedding of `handleSpendBudget` from `App.tsx`: no-op in zen mode,
otherwise clamp at zero. -/
def handleSpendBudget (zen : Bool) (budget cost : ℚ) : ℚ :=
  if zen then budget else max 0 (budget - cost)

/-- Embedding of `handleResetBudget` from `App.tsx`: no-op in zen mode or
when the current level has no budget, otherwise reset to the level budget. -/
def handleResetBudget (zen : Bool) (ceiling : Option ℚ) (budget : ℚ) : ℚ :=
  if zen then budget else
    match ceiling with
    | none => budget
    | some levelBudget => levelBudget

/-- Embedding of `handleRefundBudget` from `App.tsx`: no-op in zen mode;
unclamped addition when the level has no budget, otherwise clamped at the
level budget. -/
def handleRefundBudget (zen : Bool) (ceiling : Option ℚ) (budget amount : ℚ) : ℚ :=
  if zen then budget else
    match ceiling with
    | none => budget + amount
    | some levelBudget => min levelBudget (budget + amount)

/-- Embedding of `handleRestoreBudget` from `App.tsx`: no-op in zen mode or
when the level has no budget, otherwise the restored amount clamped at the
level budget. -/
def handleRestoreBudget (zen : Bool) (ceiling : Option ℚ) (budget amount : ℚ) : ℚ :=
  if zen then budget else
    match ceiling with
    | none => budget
    | some levelBudget => min levelBudget amount

/-- Design snapshot (`SavedDesign` in `GameCanvas.tsx`): a value copy of
`(nodes, beams, budget)`.  The `id`, `label` and `timestamp` metadata never
influence the behaviour modelled here and are omitted. -/
structure Snapshot where
  nodes : List Node
  beams : List Beam
  budget : ℚ
deriving DecidableEq, Repr

/-- State of `GameCanvas.tsx` relevant to the claims: the live design, the
undo and redo stacks (`historyRef`/`futureRef`, newest entry last), the saved
designs ring (`savedDesigns`, newest first), and the ids of beam constraints
currently present in the physics world. -/
structure CanvasState where
  nodes : List Node
  beams : List Beam
  budget : ℚ
  history : List Snapshot
  future : List Snapshot
  savedDesigns : List Snapshot
  physicsBeamIds : List String
deriving DecidableEq, Repr

/-- Capacity of the saved-designs ring (`MAX_SAVED_DESIGNS` in
`GameCanvas.tsx`). -/
def MAX_SAVED_DESIGNS : Nat := 3

/-- Capacity of the undo stack (`MAX_HISTORY` in `GameCanvas.tsx`). -/
def MAX_HISTORY : Nat := 25

/-- Last `n` elements of a list, as JavaScript `array.slice(-n)`. -/
def takeLast (n : Nat) (l : List α) : List α := l.drop (l.length - n)

/-- Embedding of `captureSnapshot` from `GameCanvas.tsx`: a deep copy of the
current `(nodes, beams, budget)`. -/
def captureSnapshot (s : CanvasState) : Snapshot := ⟨s.nodes, s.beams, s.budget⟩

/-- Embedding of `pushHistorySnapshot` from `GameCanvas.tsx` lines 269-278:
append a snapshot to the undo stack, keep the last `MAX_HISTORY`, clear the
redo stack. -/
def pushHistorySnapshot (s : CanvasState) : CanvasState :=
  { s with history := takeLast MAX_HISTORY (s.history ++ [captureSnapshot s]),
           future := [] }

/-- Beam constraints created when `loadDesign` rebuilds the physics world:
one per beam whose two endpoint nodes are both present. -/
def loadPhysicsIds (d : Snapshot) : List String :=
  (d.beams.filter (fun b =>
    decide ((∃ n ∈ d.nodes, n.id = b.startNodeId) ∧ (∃ n ∈ d.nodes, n.id = b.endNodeId)))).map
    (·.id)

/-- Embedding of `loadDesign` from `GameCanvas.tsx`: replace the live nodes
and beams with clones of the snapshot's and rebuild the physics world from
scratch.  (It also clears `isSimulating`/`selectedNode`, not modelled.) -/
def loadDesign (d : Snapshot) (s : CanvasState) : CanvasState :=
  { s with nodes := d.nodes, beams := d.beams, physicsBeamIds := loadPhysicsIds d }

/-- Embedding of `handleUndo` from `GameCanvas.tsx` lines 612-619: pop the
undo stack (no-op when empty), push a snapshot of the current state onto the
redo stack, load the popped design, and restore its budget through
`onRestoreBudget`. -/
def handleUndo (zen : Bool) (ceiling : Option ℚ) (s : CanvasState) : CanvasState :=
  match s.history.getLast? with
  | none => s
  | some previous =>
    let s1 := { s with history := s.history.dropLast,
                       future := s.future ++ [captureSnapshot s] }
    let s2 := loadDesign previous s1
    { s2 with budget := handleRestoreBudget zen ceiling s2.budget previous.budget }

/-- Embedding of `handleRedo` from `GameCanvas.tsx` lines 621-628: the mirror
of `handleUndo` (note the source appends to `historyRef` here without the
`MAX_HISTORY` slice). -/
def handleRedo (zen : Bool) (ceiling : Option ℚ) (s : CanvasState) : CanvasState :=
  match s.future.getLast? with
  | none => s
  | some next =>
    let s1 := { s with future := s.future.dropLast,
                       history := s.history ++ [captureSnapshot s] }
    let s2 := loadDesign next s1
    { s2 with budget := handleRestoreBudget zen ceiling s2.budget next.budget }

/-- Embedding of `saveCurrentDesign` from `GameCanvas.tsx` lines 286-300:
prepend a snapshot to the saved-designs ring, keeping the newest
`MAX_SAVED_DESIGNS`. -/
def saveCurrentDesign (s : CanvasState) : CanvasState :=
  { s with savedDesigns := (captureSnapshot s :: s.savedDesigns).take MAX_SAVED_DESIGNS }

/-- Embedding of `handleRestoreDesign` from `GameCanvas.tsx` lines 421-435
with no explicit id (restore latest): no-op when there are no saved designs,
otherwise push a history snapshot, load the newest design, and restore its
budget through `onRestoreBudget`. -/
def handleRestoreLatest (zen : Bool) (ceiling : Option ℚ) (s : CanvasState) : CanvasState :=
  match s.savedDesigns.head? with
  | none => s
  | some design =>
    let s1 := pushHistorySnapshot s
    let s2 := loadDesign design s1
    { s2 with budget := handleRestoreBudget zen ceiling s2.budget design.budget }

/-- Embedding of the beam-creation branch of `handleCanvasClick` from
`GameCanvas.tsx` lines 519-556: compute the cost, reject (returning the state
untouched) when it exceeds the budget, otherwise push a history snapshot,
append the new beam, add its physics constraint, and spend the cost through
`onSpendBudget`.  The geometric `length` is taken as an argument (the source
computes it as the Euclidean distance between the two node positions). -/
def attemptBeamCreation (zen : Bool) (material : MaterialType)
    (beamId startNodeId endNodeId : String) (length : ℚ) (s : CanvasState) : CanvasState :=
  let cost := calculateBeamCost length material
  if s.budget < cost then s
  else
    let newBeam : Beam :=
      ⟨beamId, startNodeId, endNodeId, material, length, 0,
        (MATERIALS material).tensionStrength⟩
    let s1 := pushHistorySnapshot s
    { s1 with beams := s1.beams ++ [newBeam],
              physicsBeamIds := s1.physicsBeamIds ++ [beamId],
              budget := handleSpendBudget zen s1.budget cost }

/-- Abstract edit for the undo/redo law: every mutating player action in
`GameCanvas.tsx` (beam creation, beam removal, node placement) first calls
`pushHistorySnapshot` and then replaces parts of the live
`(nodes, beams, budget)`; an abstract edit pushes and then installs the given
live state. -/
def applyEdit (e : Snapshot) (s : CanvasState) : CanvasState :=
  let s1 := pushHistorySnapshot s
  { s1 with nodes := e.nodes, beams := e.beams, budget := e.budget }

/-- Run a sequence of edits, each preceded by its history push. -/
def runEdits (s : CanvasState) : List Snapshot → CanvasState
  | [] => s
  | e :: es => runEdits (applyEdit e s) es

/-- Live states captured by the successive history pushes of `runEdits`: the
push preceding edit `i` snapshots the live state as it was just before that
edit. -/
def pushedStates (s : CanvasState) : List Snapshot → List Snapshot
  | [] => []
  | e :: es => captureSnapshot s :: pushedStates (applyEdit e s) es

/-- Iterated `handleUndo`. -/
def undoN (zen : Bool) (ceiling : Option ℚ) : Nat → CanvasState → CanvasState
  | 0, s => s
  | k + 1, s => handleUndo zen ceiling (undoN zen ceiling k s)

/-- Default snapshot used with `List.getD` in theorem statements. -/
def dummySnap : Snapshot := ⟨[], [], 0⟩

/-- Undirected adjacency induced by the beam list: some beam has `u` and `v`
as its two endpoints. -/
def adjacent (beams : List Beam) (u v : String) : Prop :=
  ∃ b ∈ beams,
    (b.startNodeId = u ∧ b.endNodeId = v) ∨ (b.endNodeId = u ∧ b.startNodeId = v)

/-- Walks to `endId` through the beam graph whose nodes before `endId` avoid
the `avoid` list.  `AvoidReach beams [] endId u` is plain reachability. -/
inductive AvoidReach (beams : List Beam) (avoid : List String) (endId : String) :
    String → Prop
  | refl : AvoidReach beams avoid endId endId
  | step {u v : String} : u ∉ avoid → adjacent beams u v →
      AvoidReach beams avoid endId v → AvoidReach beams avoid endId u

/-- A beam path connects `startId` to `endId`. -/
def Reaches (beams : List Beam) (startId endId : String) : Prop :=
  AvoidReach beams [] endId startId

/-- Number of ids of `R` not yet visited; the decreasing part of the BFS
termination measure. -/
def unvisitedCount (R visited : List String) : Nat :=
  (R.filter (fun i => decide (i ∉ visited))).length

/-- Recognizer for the overstress message tag. -/
def Msg.isOverstress : Msg → Bool
  | .overstress _ => true
  | _ => false

/-- Scoring formula written exactly as the specification states it (base 100,
budget-efficiency bonus, 10 points per beam with stress ratio strictly inside
(0.3, 0.8), 50 per vehicle crossed, rounded), for comparison with
`calculateBridgeScore`. -/
def scoreSpec (beams : List Beam) (budgetUsed totalBudget vehiclesCrossed : ℚ) : ℤ :=
  round ((100 : ℚ) + max 0 ((totalBudget - budgetUsed) / totalBudget) * 200
    + 10 * (((beams.filter (fun beam =>
        decide (3/10 < beam.stress / beam.maxStress ∧
          beam.stress / beam.maxStress < 8/10))).length : ℕ) : ℚ)
    + 50 * vehiclesCrossed)


/-! Helper lemmas: which message tag each rule block can emit, the material
bonus fold as a count, and correctness of the BFS in `checkPathConnection`. -/

theorem connectivityWarnings_message {nodes : List Node} {beams : List Beam}
    {w : BridgeIssue} (hw : w ∈ connectivityWarnings nodes beams) :
    w.message = Msg.connectAnchors := by
  unfold connectivityWarnings at hw
  split at hw
  · split at hw
    · split at hw <;> simp_all
    · simp_all
  · simp_all

theorem overstressWarnings_message {beams : List Beam}
    {w : BridgeIssue} (hw : w ∈ overstressWarnings beams) :
    w.message = Msg.overstress (criticalBeams beams).length := by
  unfold overstressWarnings at hw
  split at hw <;> simp_all

theorem unsupportedWarnings_message {nodes : List Node} {beams : List Beam}
    {w : BridgeIssue} (hw : w ∈ unsupportedWarnings nodes beams) :
    w.message = Msg.unsupported (unsupportedNodes nodes beams).length := by
  unfold unsupportedWarnings at hw
  split at hw <;> simp_all

theorem vehicleWarnings_message {vehicles : List Vehicle}
    {w : BridgeIssue} (hw : w ∈ vehicleWarnings vehicles) :
    w.message = Msg.noVehicles := by
  unfold vehicleWarnings at hw
  split at hw <;> simp_all

theorem foldl_materialBonus (beams : List Beam) (init : ℚ) :
    beams.foldl (fun bonus beam =>
      let efficiency := beam.stress / beam.maxStress
      if 3/10 < efficiency ∧ efficiency < 8/10 then bonus + 10 else bonus) init
    = init + 10 * (((beams.filter (fun beam =>
        decide (3/10 < beam.stress / beam.maxStress ∧
          beam.stress / beam.maxStress < 8/10))).length : ℕ) : ℚ) := by
  induction beams generalizing init with
  | nil => simp
  | cons b bs ih =>
    simp only [List.foldl_cons, List.filter_cons]
    by_cases h : 3/10 < b.stress / b.maxStress ∧ b.stress / b.maxStress < 8/10
    · rw [if_pos h, ih, if_pos (decide_eq_true h)]
      simp only [List.length_cons]
      push_cast
      ring
    · rw [if_neg h, ih, if_neg (by simpa using h)]

theorem avoidReach_cons {beams : List Beam} {avoid : List String} {endId : String}
    (x : String) :
    ∀ {v : String}, AvoidReach beams avoid endId v →
      AvoidReach beams (x :: avoid) endId v ∨
      ∃ w, adjacent beams x w ∧ AvoidReach beams (x :: avoid) endId w := by
  intro v h
  induction h with
  | refl => exact Or.inl AvoidReach.refl
  | @step u v' hu hadj hr ih =>
    rcases ih with h1 | h2
    · by_cases hx : u = x
      · subst hx
        exact Or.inr ⟨v', hadj, h1⟩
      · exact Or.inl (AvoidReach.step (by simp [hx, hu]) hadj h1)
    · exact Or.inr h2

theorem avoidReach_inv {beams : List Beam} {avoid : List String} {endId u : String}
    (h : AvoidReach beams avoid endId u) (hne : u ≠ endId) :
    u ∉ avoid ∧ ∃ w, adjacent beams u w ∧ AvoidReach beams avoid endId w := by
  cases h with
  | refl => exact absurd rfl hne
  | step hu hadj hr => exact ⟨hu, _, hadj, hr⟩

theorem mem_neighbors_of_adjacent {beams : List Beam} {c w : String}
    (h : adjacent beams c w) :
    w ∈ (connectedBeams beams c).map (otherEnd c) := by
  obtain ⟨b, hb, hcase⟩ := h
  rcases hcase with ⟨h1, h2⟩ | ⟨h1, h2⟩
  · refine List.mem_map.mpr ⟨b, List.mem_filter.mpr ⟨hb, by simp [h1]⟩, ?_⟩
    simp [otherEnd, h1, h2]
  · refine List.mem_map.mpr ⟨b, List.mem_filter.mpr ⟨hb, by simp [h1]⟩, ?_⟩
    unfold otherEnd
    by_cases hs : b.startNodeId = c
    · rw [if_pos hs, h1, ← h2, hs]
    · rw [if_neg hs]
      exact h2

theorem adjacent_of_mem_neighbors {beams : List Beam} {c w : String}
    (h : w ∈ (connectedBeams beams c).map (otherEnd c)) :
    adjacent beams c w := by
  obtain ⟨b, hb, hw⟩ := List.mem_map.mp h
  obtain ⟨hbmem, hcond⟩ := List.mem_filter.mp hb
  have hcond' : b.startNodeId = c ∨ b.endNodeId = c := by simpa using hcond
  refine ⟨b, hbmem, ?_⟩
  unfold otherEnd at hw
  by_cases hs : b.startNodeId = c
  · rw [if_pos hs] at hw
    exact Or.inl ⟨hs, hw⟩
  · rw [if_neg hs] at hw
    rcases hcond' with h1 | h1
    · exact absurd h1 hs
    · exact Or.inr ⟨h1, hw⟩

theorem bfsAux_sound (beams : List Beam) (endId : String) :
    ∀ (fuel : Nat) (visited queue : List String),
      bfsAux beams endId fuel visited queue = true →
      ∃ u ∈ queue, AvoidReach beams [] endId u := by
  intro fuel
  induction fuel with
  | zero =>
    intro visited queue h
    simp [bfsAux] at h
  | succ n ih =>
    intro visited queue h
    match queue with
    | [] => simp [bfsAux] at h
    | c :: rest =>
      rw [bfsAux] at h
      by_cases hc : c = endId
      · exact ⟨c, List.mem_cons_self _ _, hc ▸ AvoidReach.refl⟩
      · rw [if_neg hc] at h
        by_cases hv : c ∈ visited
        · rw [if_pos hv] at h
          obtain ⟨u, hu, hr⟩ := ih _ _ h
          exact ⟨u, List.mem_cons_of_mem _ hu, hr⟩
        · rw [if_neg hv] at h
          obtain ⟨u, hu, hr⟩ := ih _ _ h
          rcases List.mem_append.mp hu with h1 | h1
          · exact ⟨u, List.mem_cons_of_mem _ h1, hr⟩
          · have hadj : adjacent beams c u :=
              adjacent_of_mem_neighbors (List.mem_of_mem_filter h1)
            exact ⟨c, List.mem_cons_self _ _,
              AvoidReach.step (List.not_mem_nil c) hadj hr⟩

theorem unvisitedCount_cons {R visited : List String} {c : String}
    (hR : R.Nodup) (hcR : c ∈ R) (hcv : c ∉ visited) :
    unvisitedCount R (c :: visited) + 1 = unvisitedCount R visited := by
  unfold unvisitedCount
  induction R with
  | nil => cases hcR
  | cons r R ih =>
    rw [List.nodup_cons] at hR
    obtain ⟨hrR, hRnd⟩ := hR
    rcases List.mem_cons.mp hcR with rfl | hcR'
    · rw [List.filter_cons, List.filter_cons,
        if_neg (by simp), if_pos (by simpa using hcv)]
      have hcong : R.filter (fun i => decide (i ∉ c :: visited))
          = R.filter (fun i => decide (i ∉ visited)) := by
        apply List.filter_congr
        intro i hi
        have hic : i ≠ c := fun h => hrR (h ▸ hi)
        simp [List.mem_cons, hic]
      rw [hcong]
      simp
    · have hrc : r ≠ c := fun h => hrR (h ▸ hcR')
      rw [List.filter_cons, List.filter_cons]
      by_cases hrv : r ∈ visited
      · rw [if_neg (by simp [hrv]), if_neg (by simp [hrv])]
        exact ih hRnd hcR'
      · rw [if_pos (by simp [List.mem_cons, hrc, hrv]), if_pos (by simpa using hrv)]
        have := ih hRnd hcR'
        simp only [List.length_cons]
        omega

theorem mem_newIds {beams : List Beam} {visited : List String} {c endId w : String}
    (hc : c ≠ endId) (hev : endId ∉ visited)
    (hadj : adjacent beams c w) (hw : AvoidReach beams (c :: visited) endId w) :
    w ∈ ((connectedBeams beams c).map (otherEnd c)).filter
      (fun i => decide (i ∉ c :: visited)) := by
  refine List.mem_filter.mpr ⟨mem_neighbors_of_adjacent hadj, ?_⟩
  by_cases hwe : w = endId
  · subst hwe
    have hwc : w ≠ c := fun h => hc h.symm
    simp [List.mem_cons, hev, hwc]
  · obtain ⟨hnv, _⟩ := avoidReach_inv hw hwe
    simpa using hnv

theorem bfs_witness_step {beams : List Beam} {visited : List String} {endId c : String}
    {rest : List String} (hc : c ≠ endId) (hev : endId ∉ visited)
    (hex : ∃ u ∈ c :: rest, AvoidReach beams visited endId u) :
    ∃ u ∈ rest ++ ((connectedBeams beams c).map (otherEnd c)).filter
        (fun i => decide (i ∉ c :: visited)),
      AvoidReach beams (c :: visited) endId u := by
  obtain ⟨u, hu, hr⟩ := hex
  rcases List.mem_cons.mp hu with rfl | hu'
  · obtain ⟨hnv, w0, hadj, hw0⟩ := avoidReach_inv hr hc
    rcases avoidReach_cons u hw0 with h1 | ⟨w, hadjw, hw⟩
    · exact ⟨w0, List.mem_append_right _ (mem_newIds hc hev hadj h1), h1⟩
    · exact ⟨w, List.mem_append_right _ (mem_newIds hc hev hadjw hw), hw⟩
  · rcases avoidReach_cons c hr with h1 | ⟨w, hadjw, hw⟩
    · exact ⟨u, List.mem_append_left _ hu', h1⟩
    · exact ⟨w, List.mem_append_right _ (mem_newIds hc hev hadjw hw), hw⟩

theorem bfsAux_complete (beams : List Beam) (endId : String) (R : List String)
    (hR : R.Nodup)
    (hclosed : ∀ b ∈ beams, b.startNodeId ∈ R ∧ b.endNodeId ∈ R) :
    ∀ (fuel : Nat) (visited queue : List String),
      (∀ q ∈ queue, q ∈ R) → endId ∉ visited →
      (∃ u ∈ queue, AvoidReach beams visited endId u) →
      unvisitedCount R visited * (beams.length + 1) + queue.length ≤ fuel →
      bfsAux beams endId fuel visited queue = true := by
  intro fuel
  induction fuel with
  | zero =>
    intro visited queue hq hev hex hfuel
    exfalso
    obtain ⟨u, hu, _⟩ := hex
    have : 0 < queue.length := List.length_pos.mpr (List.ne_nil_of_mem hu)
    omega
  | succ n ih =>
    intro visited queue hq hev hex hfuel
    match queue with
    | [] =>
      obtain ⟨u, hu, _⟩ := hex
      cases hu
    | c :: rest =>
      rw [bfsAux]
      by_cases hc : c = endId
      · rw [if_pos hc]
      · rw [if_neg hc]
        by_cases hv : c ∈ visited
        · rw [if_pos hv]
          apply ih
          · exact fun q hqr => hq q (List.mem_cons_of_mem _ hqr)
          · exact hev
          · obtain ⟨u, hu, hr⟩ := hex
            rcases List.mem_cons.mp hu with rfl | hu'
            · obtain ⟨hnv, _⟩ := avoidReach_inv hr hc
              exact absurd hv hnv
            · exact ⟨u, hu', hr⟩
          · simp only [List.length_cons] at hfuel
            omega
        · rw [if_neg hv]
          apply ih
          · intro q hqm
            rcases List.mem_append.mp hqm with h1 | h1
            · exact hq q (List.mem_cons_of_mem _ h1)
            · have hmap : q ∈ (connectedBeams beams c).map (otherEnd c) :=
                List.mem_of_mem_filter h1
              obtain ⟨b, hb, hq'⟩ := List.mem_map.mp hmap
              have hbm : b ∈ beams := List.mem_of_mem_filter hb
              obtain ⟨h1R, h2R⟩ := hclosed b hbm
              unfold otherEnd at hq'
              split at hq'
              · exact hq' ▸ h2R
              · exact hq' ▸ h1R
          · have hec : endId ≠ c := fun h => hc h.symm
            simp [List.mem_cons, hev, hec]
          · exact bfs_witness_step hc hev hex
          · have hcR : c ∈ R := hq c (List.mem_cons_self _ _)
            have hcount := unvisitedCount_cons hR hcR hv
            have hnew : (((connectedBeams beams c).map (otherEnd c)).filter
                (fun i => decide (i ∉ c :: visited))).length ≤ beams.length := by
              calc (((connectedBeams beams c).map (otherEnd c)).filter
                    (fun i => decide (i ∉ c :: visited))).length
                  ≤ ((connectedBeams beams c).map (otherEnd c)).length :=
                    List.length_filter_le _ _
                _ = (connectedBeams beams c).length := List.length_map _ _
                _ ≤ beams.length := List.length_filter_le _ _
            have hmul : unvisitedCount R (c :: visited) * (beams.length + 1)
                + (beams.length + 1)
                = unvisitedCount R visited * (beams.length + 1) := by
              rw [← hcount]
              ring
            simp only [List.length_append, List.length_cons] at hfuel ⊢
            omega

theorem checkPathConnection_iff_reaches (beams : List Beam) (startId endId : String) :
    checkPathConnection beams startId endId = true ↔ Reaches beams startId endId := by
  constructor
  · intro h
    obtain ⟨u, hu, hr⟩ := bfsAux_sound beams endId _ _ _ h
    rw [List.mem_singleton] at hu
    exact hu ▸ hr
  · intro h
    unfold checkPathConnection bfsFuel
    apply bfsAux_complete beams endId (relevantIds beams startId)
      (List.nodup_dedup _)
    · intro b hb
      constructor
      · exact List.mem_dedup.mpr (List.mem_cons_of_mem _
          (List.mem_flatMap.mpr ⟨b, hb, by simp⟩))
      · exact List.mem_dedup.mpr (List.mem_cons_of_mem _
          (List.mem_flatMap.mpr ⟨b, hb, by simp⟩))
    · intro q hq
      rw [List.mem_singleton] at hq
      subst hq
      exact List.mem_dedup.mpr (List.mem_cons_self _ _)
    · exact List.not_mem_nil _
    · exact ⟨startId, List.mem_singleton.mpr rfl, h⟩
    · have hcnt : unvisitedCount (relevantIds beams startId) [] =
          (relevantIds beams startId).length := by
        unfold unvisitedCount
        rw [List.filter_congr (fun i _ => by simp : ∀ i ∈ relevantIds beams startId,
          decide (i ∉ ([] : List String)) = true)]
        simp
      simp [hcnt]


/-! Claim theorems. -/

/-- C1: for every node list, beam list, and vehicle list, `validateBridge`
returns a report whose `isValid` field is false if and only if the beam list
is empty; and when the beam list is empty, the errors list is non-empty (it
is exactly one entry) and that entry references exactly the ids of all nodes
whose `isAnchor` flag is set. -/
theorem validateBridge_noBeams_spec (nodes : List Node) (beams : List Beam)
    (vehicles : List Vehicle) :
    ((validateBridge nodes beams vehicles).isValid = false ↔ beams = []) ∧
    (beams = [] →
      (validateBridge nodes beams vehicles).errors =
        [⟨Msg.noBeams, some ((nodes.filter (·.isAnchor)).map (·.id)), none⟩]) := by
  constructor
  · cases beams <;> simp [validateBridge]
  · intro h
    subst h
    simp [validateBridge, noBeamsErrors, anchorNodes]

/-- Witness for C1 at a concrete input: two nodes of which one is an anchor,
no beams, no vehicles; the report is invalid and carries the single anchor
id. -/
theorem validateBridge_noBeams_witness :
    ((validateBridge [⟨"a", 0, 0, true, true⟩, ⟨"c", 5, 5, false, false⟩] [] []).isValid
        = false ↔ ([] : List Beam) = []) ∧
    (([] : List Beam) = [] →
      (validateBridge [⟨"a", 0, 0, true, true⟩, ⟨"c", 5, 5, false, false⟩] [] []).errors =
        [⟨Msg.noBeams,
          some ((([⟨"a", 0, 0, true, true⟩, ⟨"c", 5, 5, false, false⟩] : List Node).filter
            (·.isAnchor)).map (·.id)), none⟩]) :=
  validateBridge_noBeams_spec _ [] []

/-- C2: for every input with at least two anchor nodes (first anchor
`startAnchor`, last anchor `endAnchor` in node-list order), `validateBridge`
emits the connectivity warning exactly when no beam path joins the two
anchors (which is what the BFS of `checkPathConnection` decides, by
`checkPathConnection_iff_reaches`); the warning's `nodeIds` are exactly
`[startAnchor.id, endAnchor.id]`; and when a beam path connects the two
anchors the warning is absent. -/
theorem validateBridge_connectivity_spec (nodes : List Node) (beams : List Beam)
    (vehicles : List Vehicle) (startAnchor endAnchor : Node)
    (hcount : 2 ≤ (anchorNodes nodes).length)
    (hs : (anchorNodes nodes).head? = some startAnchor)
    (he : (anchorNodes nodes).getLast? = some endAnchor) :
    ((⟨Msg.connectAnchors, some [startAnchor.id, endAnchor.id], none⟩ : BridgeIssue)
        ∈ (validateBridge nodes beams vehicles).warnings
      ↔ ¬ Reaches beams startAnchor.id endAnchor.id) ∧
    (∀ w ∈ (validateBridge nodes beams vehicles).warnings,
      w.message = Msg.connectAnchors → w.nodeIds = some [startAnchor.id, endAnchor.id]) := by
  have hconn : connectivityWarnings nodes beams
      = if checkPathConnection beams startAnchor.id endAnchor.id then []
        else [⟨Msg.connectAnchors, some [startAnchor.id, endAnchor.id], none⟩] := by
    unfold connectivityWarnings
    rw [if_pos hcount, hs, he]
  have h2 : ∀ w, (w ∈ overstressWarnings beams ∨ w ∈ unsupportedWarnings nodes beams
      ∨ w ∈ vehicleWarnings vehicles) → w.message ≠ Msg.connectAnchors := by
    intro w hw
    rcases hw with hw1 | hw1 | hw1
    · rw [overstressWarnings_message hw1]
      simp
    · rw [unsupportedWarnings_message hw1]
      simp
    · rw [vehicleWarnings_message hw1]
      simp
  have hwarn : (validateBridge nodes beams vehicles).warnings
      = connectivityWarnings nodes beams ++ overstressWarnings beams
        ++ unsupportedWarnings nodes beams ++ vehicleWarnings vehicles := rfl
  constructor
  · rw [hwarn]
    constructor
    · intro hmem
      have hsplit : (⟨Msg.connectAnchors, some [startAnchor.id, endAnchor.id], none⟩ :
          BridgeIssue) ∈ connectivityWarnings nodes beams ∨
          ((⟨Msg.connectAnchors, some [startAnchor.id, endAnchor.id], none⟩ : BridgeIssue)
            ∈ overstressWarnings beams ∨
           (⟨Msg.connectAnchors, some [startAnchor.id, endAnchor.id], none⟩ : BridgeIssue)
            ∈ unsupportedWarnings nodes beams ∨
           (⟨Msg.connectAnchors, some [startAnchor.id, endAnchor.id], none⟩ : BridgeIssue)
            ∈ vehicleWarnings vehicles) := by
        simpa [List.mem_append, or_assoc] using hmem
      rcases hsplit with h1 | h1
      · rw [hconn] at h1
        by_cases hcp : checkPathConnection beams startAnchor.id endAnchor.id = true
        · rw [if_pos hcp] at h1
          cases h1
        · intro hre
          exact hcp ((checkPathConnection_iff_reaches _ _ _).mpr hre)
      · exact absurd rfl (h2 _ h1)
    · intro hnr
      apply List.mem_append_left
      apply List.mem_append_left
      apply List.mem_append_left
      rw [hconn, if_neg (fun hcp => hnr ((checkPathConnection_iff_reaches _ _ _).mp hcp))]
      exact List.mem_singleton.mpr rfl
  · intro w hw hmsg
    rw [hwarn] at hw
    have hsplit : w ∈ connectivityWarnings nodes beams ∨
        (w ∈ overstressWarnings beams ∨ w ∈ unsupportedWarnings nodes beams ∨
         w ∈ vehicleWarnings vehicles) := by
      simpa [List.mem_append, or_assoc] using hw
    rcases hsplit with h1 | h1
    · rw [hconn] at h1
      by_cases hcp : checkPathConnection beams startAnchor.id endAnchor.id = true
      · rw [if_pos hcp] at h1
        cases h1
      · rw [if_neg hcp] at h1
        rw [List.mem_singleton.mp h1]
    · exact absurd hmsg (h2 _ h1)

/-- Witness for C2 at a concrete input: two anchor nodes and no beams. -/
theorem validateBridge_connectivity_witness :
    ((⟨Msg.connectAnchors,
        some [(⟨"a", 0, 0, true, true⟩ : Node).id, (⟨"b", 300, 0, true, true⟩ : Node).id],
        none⟩ : BridgeIssue)
        ∈ (validateBridge [⟨"a", 0, 0, true, true⟩, ⟨"b", 300, 0, true, true⟩] [] []).warnings
      ↔ ¬ Reaches [] (⟨"a", 0, 0, true, true⟩ : Node).id (⟨"b", 300, 0, true, true⟩ : Node).id) ∧
    (∀ w ∈ (validateBridge [⟨"a", 0, 0, true, true⟩, ⟨"b", 300, 0, true, true⟩] [] []).warnings,
      w.message = Msg.connectAnchors →
      w.nodeIds = some [(⟨"a", 0, 0, true, true⟩ : Node).id,
        (⟨"b", 300, 0, true, true⟩ : Node).id]) :=
  validateBridge_connectivity_spec _ _ _ _ _ (by decide) rfl rfl

/-- C3 (code bug): the source has no guard at all on the division by
`totalBudget`.  At the concrete non-positive input `totalBudget = -10`,
`budgetUsed = 0` the budget-efficiency term is `max(0, (-10 - 0)/(-10)) * 200
= 200`, not `0`, so the returned score is `300` rather than the `100` the
specified guard would produce.  (At `totalBudget = 0` the JS code even
returns `NaN`, which a rational model cannot express; this theorem therefore
exhibits the bug at `-10`, where the model is exact.) -/
theorem calculateBridgeScore_nonpositive_budget_bug :
    calculateBridgeScore [] 0 (-10) 0 = 300 ∧ (300 : ℤ) ≠ 100 :=
  ⟨by norm_num [calculateBridgeScore, round_eq], by norm_num⟩

/-- C4 counterexample: `calculateBeamCost` does not divide by 100; for a beam
of length 100 with wood (unit cost 10) it returns `ceil(100 * 10) = 1000`,
not 10. -/
theorem beamCost_div100_counterexample :
    calculateBeamCost 100 MaterialType.wood = 1000 ∧
    calculateBeamCost 100 MaterialType.wood ≠ 10 := by
  constructor <;> norm_num [calculateBeamCost, MATERIALS]

/-- C4 (amended): `calculateBeamCost` scales by the material's per-unit cost
with no division by 100: a length-100 wood beam costs `ceil(100 * 10) =
1000` (only the legacy standalone `game.js` divides by 100, giving 10), and
creating any affordable beam with zen mode off deducts exactly the computed
cost from the budget while appending exactly the new beam. -/
theorem beamCost_scaling_spec :
    calculateBeamCost 100 MaterialType.wood = 1000 ∧
    legacyBeamCost 100 MaterialType.wood = 10 ∧
    ∀ (material : MaterialType) (len : ℚ) (beamId startId endId : String)
      (s : CanvasState),
      calculateBeamCost len material ≤ s.budget →
      (attemptBeamCreation false material beamId startId endId len s).budget
        = s.budget - calculateBeamCost len material ∧
      (attemptBeamCreation false material beamId startId endId len s).beams
        = s.beams ++ [⟨beamId, startId, endId, material, len, 0,
            (MATERIALS material).tensionStrength⟩] := by
  refine ⟨by norm_num [calculateBeamCost, MATERIALS],
          by norm_num [legacyBeamCost, MATERIALS], ?_⟩
  intro material len beamId startId endId s h
  unfold attemptBeamCreation
  rw [if_neg (not_lt.mpr h)]
  constructor
  · simp [pushHistorySnapshot, handleSpendBudget, max_eq_right (sub_nonneg.mpr h)]
  · simp [pushHistorySnapshot]

/-- Witness for C4 at a concrete input: a length-100 wood beam on a budget of
2000 deducts exactly its cost and appends exactly the beam. -/
theorem beamCost_scaling_witness :
    (attemptBeamCreation false MaterialType.wood "b1" "a" "b" 100
        ⟨[], [], 2000, [], [], [], []⟩).budget
      = (⟨[], [], 2000, [], [], [], []⟩ : CanvasState).budget
          - calculateBeamCost 100 MaterialType.wood ∧
    (attemptBeamCreation false MaterialType.wood "b1" "a" "b" 100
        ⟨[], [], 2000, [], [], [], []⟩).beams
      = (⟨[], [], 2000, [], [], [], []⟩ : CanvasState).beams
          ++ [⟨"b1", "a", "b", MaterialType.wood, 100, 0,
              (MATERIALS MaterialType.wood).tensionStrength⟩] :=
  beamCost_scaling_spec.2.2 MaterialType.wood 100 "b1" "a" "b" _
    (by norm_num [calculateBeamCost, MATERIALS])

/-- C5: for every input with `totalBudget > 0`, `calculateBridgeScore` equals
`round(100 + max(0, (totalBudget - budgetUsed)/totalBudget) * 200 + 10 *
(number of beams with stress ratio strictly inside (0.3, 0.8)) + 50 *
vehiclesCrossed)`, the formula as the specification states it (`scoreSpec`). -/
theorem calculateBridgeScore_formula_spec (beams : List Beam)
    (budgetUsed totalBudget vehiclesCrossed : ℚ) (h : 0 < totalBudget) :
    calculateBridgeScore beams budgetUsed totalBudget vehiclesCrossed
      = scoreSpec beams budgetUsed totalBudget vehiclesCrossed := by
  unfold calculateBridgeScore scoreSpec
  dsimp only
  rw [foldl_materialBonus]
  congr 1
  ring

/-- Witness for C5 at a concrete input: one half-stressed beam, budget 100 of
500 used, two vehicles crossed. -/
theorem calculateBridgeScore_formula_witness :
    0 < (500 : ℚ) ∧
    calculateBridgeScore [⟨"b1", "n1", "n2", MaterialType.wood, 100, 50, 100⟩] 100 500 2
      = scoreSpec [⟨"b1", "n1", "n2", MaterialType.wood, 100, 50, 100⟩] 100 500 2 :=
  ⟨by norm_num, calculateBridgeScore_formula_spec _ _ _ _ (by norm_num)⟩

/-- C6: `validateBridge` flags a beam as overstressed exactly when its stress
is strictly greater than 0.9 times its `maxStress`, and the warnings list
carries exactly one overstress-tagged entry — whose `beamIds` are exactly the
flagged beam ids and whose message carries their count — when any flagged
beam exists, and none otherwise. -/
theorem validateBridge_overstress_spec (nodes : List Node) (beams : List Beam)
    (vehicles : List Vehicle) :
    (∀ b ∈ beams, (b ∈ criticalBeams beams ↔ 9/10 * b.maxStress < b.stress)) ∧
    ((validateBridge nodes beams vehicles).warnings.filter
        (fun w => w.message.isOverstress)
      = if (criticalBeams beams).length = 0 then []
        else [⟨Msg.overstress (criticalBeams beams).length, none,
               some ((criticalBeams beams).map (·.id))⟩]) := by
  constructor
  · intro b hb
    simp [criticalBeams, List.mem_filter, hb, mul_comm]
  · have h1 : (connectivityWarnings nodes beams).filter
        (fun w => w.message.isOverstress) = [] := by
      rw [List.filter_eq_nil_iff]
      intro w hw
      rw [connectivityWarnings_message hw]
      simp [Msg.isOverstress]
    have h3 : (unsupportedWarnings nodes beams).filter
        (fun w => w.message.isOverstress) = [] := by
      rw [List.filter_eq_nil_iff]
      intro w hw
      rw [unsupportedWarnings_message hw]
      simp [Msg.isOverstress]
    have h4 : (vehicleWarnings vehicles).filter
        (fun w => w.message.isOverstress) = [] := by
      rw [List.filter_eq_nil_iff]
      intro w hw
      rw [vehicleWarnings_message hw]
      simp [Msg.isOverstress]
    have h2 : (overstressWarnings beams).filter
        (fun w => w.message.isOverstress) = overstressWarnings beams := by
      rw [List.filter_eq_self]
      intro w hw
      rw [overstressWarnings_message hw]
      simp [Msg.isOverstress]
    simp only [validateBridge, List.filter_append, h1, h2, h3, h4,
      List.nil_append, List.append_nil]
    unfold overstressWarnings
    rcases Nat.eq_zero_or_pos (criticalBeams beams).length with h | h
    · rw [if_neg (by omega), if_pos h]
    · rw [if_pos h, if_neg (by omega)]

/-- Witness for C6 at a concrete input: a beam at ratio 0.95 is flagged and a
beam at ratio exactly 0.90 is not, and the single aggregated warning lists
exactly the flagged beam. -/
theorem validateBridge_overstress_witness :
    (∀ b ∈ [(⟨"b95", "a", "b", MaterialType.wood, 100, 95, 100⟩ : Beam),
            ⟨"b90", "a", "b", MaterialType.wood, 100, 90, 100⟩],
      (b ∈ criticalBeams [⟨"b95", "a", "b", MaterialType.wood, 100, 95, 100⟩,
            ⟨"b90", "a", "b", MaterialType.wood, 100, 90, 100⟩]
        ↔ 9/10 * b.maxStress < b.stress)) ∧
    ((validateBridge [] [⟨"b95", "a", "b", MaterialType.wood, 100, 95, 100⟩,
        ⟨"b90", "a", "b", MaterialType.wood, 100, 90, 100⟩] []).warnings.filter
        (fun w => w.message.isOverstress)
      = if (criticalBeams [⟨"b95", "a", "b", MaterialType.wood, 100, 95, 100⟩,
            ⟨"b90", "a", "b", MaterialType.wood, 100, 90, 100⟩]).length = 0 then []
        else [⟨Msg.overstress (criticalBeams
                [⟨"b95", "a", "b", MaterialType.wood, 100, 95, 100⟩,
                 ⟨"b90", "a", "b", MaterialType.wood, 100, 90, 100⟩]).length, none,
               some ((criticalBeams [⟨"b95", "a", "b", MaterialType.wood, 100, 95, 100⟩,
                 ⟨"b90", "a", "b", MaterialType.wood, 100, 90, 100⟩]).map (·.id))⟩]) :=
  validateBridge_overstress_spec [] _ []

/-- C8: saving and then restoring on an unmodified live state yields node and
beam collections equal by value to the pre-save state, and the restored
budget is `min(level budget, snapshot budget)`, hence never exceeds the
level's budget ceiling. -/
theorem saveRestore_roundtrip_spec (s : CanvasState) (levelBudget : ℚ) :
    (handleRestoreLatest false (some levelBudget) (saveCurrentDesign s)).nodes = s.nodes ∧
    (handleRestoreLatest false (some levelBudget) (saveCurrentDesign s)).beams = s.beams ∧
    (handleRestoreLatest false (some levelBudget) (saveCurrentDesign s)).budget
      = min levelBudget s.budget ∧
    (handleRestoreLatest false (some levelBudget) (saveCurrentDesign s)).budget
      ≤ levelBudget := by
  have hsave : (saveCurrentDesign s).savedDesigns.head? = some (captureSnapshot s) := by
    simp [saveCurrentDesign, MAX_SAVED_DESIGNS]
  unfold handleRestoreLatest
  rw [hsave]
  refine ⟨?_, ?_, ?_, ?_⟩ <;>
    simp [loadDesign, pushHistorySnapshot, saveCurrentDesign, handleRestoreBudget,
      captureSnapshot, min_le_left]

/-- C9: a beam-creation request whose cost strictly exceeds the remaining
budget is rejected before any state mutation: the resulting state (beams,
budget, history, redo stack, saved designs, physics constraints) is exactly
the input state. -/
theorem beamCreation_insufficient_rejected_spec (zen : Bool) (material : MaterialType)
    (beamId startId endId : String) (len : ℚ) (s : CanvasState)
    (h : s.budget < calculateBeamCost len material) :
    attemptBeamCreation zen material beamId startId endId len s = s := by
  unfold attemptBeamCreation
  rw [if_pos h]

/-- Witness for C9 at a concrete input: a length-1 wood beam (cost 10) on a
budget of 5 is rejected with the state unchanged. -/
theorem beamCreation_insufficient_rejected_witness :
    attemptBeamCreation false MaterialType.wood "b1" "a" "b" 1
        ⟨[], [], 5, [], [], [], []⟩
      = ⟨[], [], 5, [], [], [], []⟩ :=
  beamCreation_insufficient_rejected_spec false MaterialType.wood "b1" "a" "b" 1 _
    (by norm_num [calculateBeamCost, MATERIALS])

/-- C10 (implicit invariant): with zen mode off and a level budget ceiling
present, starting from a budget within `[0, ceiling]` and non-negative
amounts, spending clamps at 0 via `max(0, budget - cost)`, refunding clamps
at the ceiling via `min(ceiling, budget + amount)`, resetting yields exactly
the ceiling, and restoring clamps the restored amount to the ceiling — all
four results stay within `[0, ceiling]`; with zen mode on, all four
operations leave the budget unchanged. -/
theorem budget_invariant_spec (levelBudget budget cost amount : ℚ)
    (hb0 : 0 ≤ budget) (hbL : budget ≤ levelBudget) (hc : 0 ≤ cost) (ha : 0 ≤ amount) :
    (handleSpendBudget false budget cost = max 0 (budget - cost) ∧
      0 ≤ handleSpendBudget false budget cost ∧
      handleSpendBudget false budget cost ≤ levelBudget) ∧
    (handleRefundBudget false (some levelBudget) budget amount
        = min levelBudget (budget + amount) ∧
      0 ≤ handleRefundBudget false (some levelBudget) budget amount ∧
      handleRefundBudget false (some levelBudget) budget amount ≤ levelBudget) ∧
    (handleResetBudget false (some levelBudget) budget = levelBudget ∧
      0 ≤ handleResetBudget false (some levelBudget) budget) ∧
    (handleRestoreBudget false (some levelBudget) budget amount = min levelBudget amount ∧
      0 ≤ handleRestoreBudget false (some levelBudget) budget amount ∧
      handleRestoreBudget false (some levelBudget) budget amount ≤ levelBudget) ∧
    (∀ (ceiling : Option ℚ) (b c a : ℚ),
      handleSpendBudget true b c = b ∧ handleRefundBudget true ceiling b a = b ∧
      handleResetBudget true ceiling b = b ∧ handleRestoreBudget true ceiling b a = b) := by
  have hL0 : 0 ≤ levelBudget := le_trans hb0 hbL
  refine ⟨⟨rfl, le_max_left _ _, max_le hL0 (by linarith)⟩,
          ⟨rfl, le_min hL0 (by linarith), min_le_left _ _⟩,
          ⟨rfl, hL0⟩,
          ⟨rfl, le_min hL0 ha, min_le_left _ _⟩,
          fun ceiling b c a => ⟨rfl, rfl, rfl, rfl⟩⟩

/-- Witness for C10 at a concrete input: ceiling 100, budget 50, cost 10,
refund and restore amount 20. -/
theorem budget_invariant_witness :
    (handleSpendBudget false 50 10 = max 0 ((50 : ℚ) - 10) ∧
      0 ≤ handleSpendBudget false 50 10 ∧
      handleSpendBudget false 50 10 ≤ (100 : ℚ)) ∧
    (handleRefundBudget false (some 100) 50 20 = min (100 : ℚ) (50 + 20) ∧
      0 ≤ handleRefundBudget false (some 100) 50 20 ∧
      handleRefundBudget false (some 100) 50 20 ≤ (100 : ℚ)) ∧
    (handleResetBudget false (some 100) 50 = (100 : ℚ) ∧
      0 ≤ handleResetBudget false (some 100) (50 : ℚ)) ∧
    (handleRestoreBudget false (some 100) 50 20 = min (100 : ℚ) 20 ∧
      0 ≤ handleRestoreBudget false (some 100) 50 20 ∧
      handleRestoreBudget false (some 100) 50 20 ≤ (100 : ℚ)) ∧
    (∀ (ceiling : Option ℚ) (b c a : ℚ),
      handleSpendBudget true b c = b ∧ handleRefundBudget true ceiling b a = b ∧
      handleResetBudget true ceiling b = b ∧ handleRestoreBudget true ceiling b a = b) :=
  budget_invariant_spec 100 50 10 20 (by norm_num) (by norm_num) (by norm_num)
    (by norm_num)


/-! Helper lemmas for the design-history state machine (claim C7). -/



theorem takeLast_of_length_le {α : Type} {n : Nat} {l : List α} (h : l.length ≤ n) :
    takeLast n l = l := by
  unfold takeLast
  rw [Nat.sub_eq_zero_of_le h, List.drop_zero]

theorem takeLast_length {α : Type} (n : Nat) (l : List α) :
    (takeLast n l).length = min n l.length := by
  unfold takeLast
  rw [List.length_drop]
  omega

theorem takeLast_append {α : Type} (n : Nat) (a b : List α) :
    takeLast n (takeLast n a ++ b) = takeLast n (a ++ b) := by
  unfold takeLast
  have h1 : a.drop (a.length - n) ++ b = (a ++ b).drop (a.length - n) :=
    (List.drop_append_of_le_length (by omega)).symm
  rw [h1, List.drop_drop]
  congr 1
  simp only [List.length_drop, List.length_append]
  omega

theorem handleUndo_concat (zen : Bool) (ceiling : Option ℚ) (s : CanvasState)
    (h0 : List Snapshot) (p : Snapshot) (hh : s.history = h0 ++ [p]) :
    handleUndo zen ceiling s =
      ⟨p.nodes, p.beams, handleRestoreBudget zen ceiling s.budget p.budget, h0,
        s.future ++ [captureSnapshot s], s.savedDesigns, loadPhysicsIds p⟩ := by
  unfold handleUndo
  rw [hh, List.getLast?_concat]
  simp [loadDesign, List.dropLast_concat, hh]

theorem handleRedo_concat (zen : Bool) (ceiling : Option ℚ) (s : CanvasState)
    (f0 : List Snapshot) (p : Snapshot) (hf : s.future = f0 ++ [p]) :
    handleRedo zen ceiling s =
      ⟨p.nodes, p.beams, handleRestoreBudget zen ceiling s.budget p.budget,
        s.history ++ [captureSnapshot s], f0, s.savedDesigns, loadPhysicsIds p⟩ := by
  unfold handleRedo
  rw [hf, List.getLast?_concat]
  simp [loadDesign, List.dropLast_concat, hf]

theorem handleUndo_empty (zen : Bool) (ceiling : Option ℚ) (s : CanvasState)
    (h : s.history = []) : handleUndo zen ceiling s = s := by
  unfold handleUndo
  rw [h]
  rfl

theorem handleRedo_empty (zen : Bool) (ceiling : Option ℚ) (s : CanvasState)
    (h : s.future = []) : handleRedo zen ceiling s = s := by
  unfold handleRedo
  rw [h]
  rfl

theorem runEdits_history (es : List Snapshot) :
    ∀ (s : CanvasState), s.history.length ≤ MAX_HISTORY →
    (runEdits s es).history = takeLast MAX_HISTORY (s.history ++ pushedStates s es) := by
  induction es with
  | nil =>
    intro s h
    rw [runEdits, pushedStates, List.append_nil, takeLast_of_length_le h]
  | cons e es ih =>
    intro s h
    rw [runEdits, pushedStates]
    have happ : (applyEdit e s).history
        = takeLast MAX_HISTORY (s.history ++ [captureSnapshot s]) := rfl
    have hlen : (applyEdit e s).history.length ≤ MAX_HISTORY := by
      rw [happ, takeLast_length]
      omega
    rw [ih (applyEdit e s) hlen, happ, takeLast_append, List.append_assoc,
      List.singleton_append]

theorem runEdits_budget_le {L : ℚ} (es : List Snapshot) :
    ∀ (s : CanvasState), s.budget ≤ L → (∀ e ∈ es, e.budget ≤ L) →
    (runEdits s es).budget ≤ L := by
  induction es with
  | nil =>
    intro s hs _
    exact hs
  | cons e es ih =>
    intro s hs hes
    rw [runEdits]
    exact ih (applyEdit e s) (hes e (List.mem_cons_self _ _))
      (fun x hx => hes x (List.mem_cons_of_mem _ hx))

theorem pushedStates_budget_le {L : ℚ} (es : List Snapshot) :
    ∀ (s : CanvasState), s.budget ≤ L → (∀ e ∈ es, e.budget ≤ L) →
    ∀ p ∈ pushedStates s es, p.budget ≤ L := by
  induction es with
  | nil =>
    intro s _ _ p hp
    cases hp
  | cons e es ih =>
    intro s hs hes p hp
    rw [pushedStates] at hp
    rcases List.mem_cons.mp hp with rfl | hp'
    · exact hs
    · exact ih (applyEdit e s) (hes e (List.mem_cons_self _ _))
        (fun x hx => hes x (List.mem_cons_of_mem _ hx)) p hp'

theorem pushedStates_length (es : List Snapshot) :
    ∀ (s : CanvasState), (pushedStates s es).length = es.length := by
  induction es with
  | nil => intro s; rfl
  | cons e es ih =>
    intro s
    simp [pushedStates, ih]

theorem undoN_spec (L : ℚ) (k : Nat) :
    ∀ (s : CanvasState), k ≤ s.history.length →
    (undoN false (some L) k s).history = s.history.take (s.history.length - k) ∧
    (undoN false (some L) k s).savedDesigns = s.savedDesigns ∧
    (1 ≤ k →
      (undoN false (some L) k s).nodes
        = (s.history.getD (s.history.length - k) dummySnap).nodes ∧
      (undoN false (some L) k s).beams
        = (s.history.getD (s.history.length - k) dummySnap).beams ∧
      (undoN false (some L) k s).budget
        = min L (s.history.getD (s.history.length - k) dummySnap).budget) := by
  induction k with
  | zero =>
    intro s _
    refine ⟨?_, rfl, fun h => absurd h (by omega)⟩
    rw [Nat.sub_zero, List.take_length]
    rfl
  | succ k ih =>
    intro s hk
    obtain ⟨ihh, ihsd, ihrest⟩ := ih s (by omega)
    have hlen : (undoN false (some L) k s).history.length = s.history.length - k := by
      rw [ihh, List.length_take]
      omega
    have hi : s.history.length - k - 1 < s.history.length := by omega
    have hone : s.history.length - k = (s.history.length - k - 1) + 1 := by omega
    have hsplit : (undoN false (some L) k s).history
        = s.history.take (s.history.length - k - 1)
          ++ [s.history.get ⟨s.history.length - k - 1, hi⟩] := by
      rw [ihh]
      conv_lhs => rw [hone]
      rw [← List.take_concat_get s.history _ hi]
      simp [List.concat_eq_append]
    have hstep : undoN false (some L) (k + 1) s
        = handleUndo false (some L) (undoN false (some L) k s) := rfl
    have hgetD : s.history.getD (s.history.length - (k + 1)) dummySnap
        = s.history.get ⟨s.history.length - k - 1, hi⟩ := by
      rw [List.getD_eq_getElem s.history dummySnap
        (by omega : s.history.length - (k+1) < s.history.length)]
      congr 1
    rw [hstep, handleUndo_concat false (some L) _ _ _ hsplit, hgetD]
    refine ⟨?_, ihsd, fun _ => ⟨rfl, rfl, rfl⟩⟩
    show s.history.take (s.history.length - k - 1)
      = s.history.take (s.history.length - (k + 1))
    congr 1



theorem handleRedo_handleUndo (L : ℚ) (s : CanvasState) (hne : s.history ≠ [])
    (hb : s.budget ≤ L) (hall : ∀ p ∈ s.history, p.budget ≤ L) :
    (handleRedo false (some L) (handleUndo false (some L) s)).nodes = s.nodes ∧
    (handleRedo false (some L) (handleUndo false (some L) s)).beams = s.beams ∧
    (handleRedo false (some L) (handleUndo false (some L) s)).budget = s.budget ∧
    (handleRedo false (some L) (handleUndo false (some L) s)).history = s.history ∧
    (handleRedo false (some L) (handleUndo false (some L) s)).future = s.future := by
  obtain ⟨h0, p, hh⟩ : ∃ h0 p, s.history = h0 ++ [p] :=
    ⟨s.history.dropLast, s.history.getLast hne,
      (List.dropLast_append_getLast hne).symm⟩
  have hpL : p.budget ≤ L := hall p (by rw [hh]; exact List.mem_append_right _ (List.mem_singleton.mpr rfl))
  rw [handleUndo_concat false (some L) s h0 p hh]
  rw [handleRedo_concat false (some L) _ (s.future) (captureSnapshot s) rfl]
  have hcap : captureSnapshot
      (⟨p.nodes, p.beams, handleRestoreBudget false (some L) s.budget p.budget, h0,
        s.future ++ [captureSnapshot s], s.savedDesigns, loadPhysicsIds p⟩ : CanvasState)
      = p := by
    show (⟨p.nodes, p.beams, min L p.budget⟩ : Snapshot) = p
    rw [min_eq_right hpL]
  refine ⟨rfl, rfl, min_eq_right hb, ?_, rfl⟩
  rw [hcap]
  exact hh.symm



theorem takeLast_getD {α : Type} (n : Nat) (l : List α) (j : Nat) (d : α)
    (hj : j < (takeLast n l).length) :
    (takeLast n l).getD j d = l.getD (l.length - n + j) d := by
  have hlen : (takeLast n l).length = min n l.length := takeLast_length n l
  have hjl : l.length - n + j < l.length := by omega
  unfold takeLast at hj ⊢
  rw [List.getD_eq_getElem _ d hj, List.getD_eq_getElem _ d hjl]
  exact List.getElem_drop l

/-- C7 (undo/redo law): starting from a clean history, after any sequence of
edits each preceded by a history push (`runEdits`), performing `undo` exactly
`k` times (`1 ≤ k` at most the history depth) restores nodes, beams, and
budget to the snapshot taken at the `k`-th-from-last push (the entry of
`pushedStates` at index `length - k`; the budget hypotheses make the
`min`-clamp of `onRestoreBudget` the identity); a subsequent `redo` restores
the design state (nodes, beams, budget, history, future) that held
immediately before that `undo`; and both `undo` and `redo` leave the state
unchanged when their source stack is empty. -/
theorem undoRedo_law_spec (L : ℚ) (s0 : CanvasState) (es : List Snapshot) (k : Nat)
    (hhist : s0.history = []) (hb0 : s0.budget ≤ L) (hes : ∀ e ∈ es, e.budget ≤ L)
    (hk1 : 1 ≤ k) (hk2 : k ≤ (runEdits s0 es).history.length) :
    ((undoN false (some L) k (runEdits s0 es)).nodes
        = ((pushedStates s0 es).getD (es.length - k) dummySnap).nodes ∧
     (undoN false (some L) k (runEdits s0 es)).beams
        = ((pushedStates s0 es).getD (es.length - k) dummySnap).beams ∧
     (undoN false (some L) k (runEdits s0 es)).budget
        = ((pushedStates s0 es).getD (es.length - k) dummySnap).budget) ∧
    ((handleRedo false (some L) (undoN false (some L) k (runEdits s0 es))).nodes
        = (undoN false (some L) (k - 1) (runEdits s0 es)).nodes ∧
     (handleRedo false (some L) (undoN false (some L) k (runEdits s0 es))).beams
        = (undoN false (some L) (k - 1) (runEdits s0 es)).beams ∧
     (handleRedo false (some L) (undoN false (some L) k (runEdits s0 es))).budget
        = (undoN false (some L) (k - 1) (runEdits s0 es)).budget ∧
     (handleRedo false (some L) (undoN false (some L) k (runEdits s0 es))).history
        = (undoN false (some L) (k - 1) (runEdits s0 es)).history ∧
     (handleRedo false (some L) (undoN false (some L) k (runEdits s0 es))).future
        = (undoN false (some L) (k - 1) (runEdits s0 es)).future) ∧
    (∀ (zen : Bool) (ceiling : Option ℚ) (t : CanvasState),
      (t.history = [] → handleUndo zen ceiling t = t) ∧
      (t.future = [] → handleRedo zen ceiling t = t)) := by
  have hhistlen : s0.history.length ≤ MAX_HISTORY := by
    rw [hhist]
    simp
  have hrh : (runEdits s0 es).history
      = takeLast MAX_HISTORY (pushedStates s0 es) := by
    rw [runEdits_history es s0 hhistlen, hhist, List.nil_append]
  have hPlen : (pushedStates s0 es).length = es.length := pushedStates_length es s0
  have hk2' : k ≤ (takeLast MAX_HISTORY (pushedStates s0 es)).length := by
    rw [← hrh]
    exact hk2
  have htll : (takeLast MAX_HISTORY (pushedStates s0 es)).length
      = min MAX_HISTORY es.length := by
    rw [takeLast_length, hPlen]
  have hmk : es.length - k < (pushedStates s0 es).length := by
    rw [hPlen]
    omega
  have hgd : (runEdits s0 es).history.getD
        ((runEdits s0 es).history.length - k) dummySnap
      = (pushedStates s0 es).getD (es.length - k) dummySnap := by
    have hjb : (takeLast MAX_HISTORY (pushedStates s0 es)).length - k
        < (takeLast MAX_HISTORY (pushedStates s0 es)).length := by omega
    rw [hrh, takeLast_getD _ _ _ _ hjb]
    congr 1
    rw [hPlen]
    omega
  have hsnapmem : (pushedStates s0 es).getD (es.length - k) dummySnap
      ∈ pushedStates s0 es := by
    rw [List.getD_eq_getElem _ _ hmk]
    exact List.getElem_mem hmk
  have hsnapL : ((pushedStates s0 es).getD (es.length - k) dummySnap).budget ≤ L :=
    pushedStates_budget_le es s0 hb0 hes _ hsnapmem
  obtain ⟨hh1, _, hrest⟩ := undoN_spec L k (runEdits s0 es) hk2
  obtain ⟨hn, hbm, hbu⟩ := hrest hk1
  refine ⟨⟨?_, ?_, ?_⟩, ?_, fun zen ceiling t =>
    ⟨handleUndo_empty zen ceiling t, handleRedo_empty zen ceiling t⟩⟩
  · rw [hn, hgd]
  · rw [hbm, hgd]
  · rw [hbu, hgd, min_eq_right hsnapL]
  · -- redo undoes the last undo
    have hstep : undoN false (some L) k (runEdits s0 es)
        = handleUndo false (some L) (undoN false (some L) (k - 1) (runEdits s0 es)) := by
      conv_lhs => rw [show k = (k - 1) + 1 from (Nat.succ_pred_eq_of_pos hk1).symm]
      rfl
    obtain ⟨hh2, _, hrest2⟩ := undoN_spec L (k - 1) (runEdits s0 es) (by omega)
    have hprevlen : (undoN false (some L) (k - 1) (runEdits s0 es)).history.length
        = (runEdits s0 es).history.length - (k - 1) := by
      rw [hh2, List.length_take]
      omega
    have hne : (undoN false (some L) (k - 1) (runEdits s0 es)).history ≠ [] := by
      apply List.ne_nil_of_length_pos
      rw [hprevlen]
      omega
    have hbudget : (undoN false (some L) (k - 1) (runEdits s0 es)).budget ≤ L := by
      rcases Nat.eq_zero_or_pos (k - 1) with hj | hj
      · rw [hj]
        exact runEdits_budget_le es s0 hb0 hes
      · obtain ⟨_, _, hbu2⟩ := hrest2 hj
        rw [hbu2]
        exact min_le_left _ _
    have hall : ∀ p ∈ (undoN false (some L) (k - 1) (runEdits s0 es)).history,
        p.budget ≤ L := by
      intro p hp
      rw [hh2] at hp
      have hp2 : p ∈ (runEdits s0 es).history := List.take_subset _ _ hp
      rw [hrh] at hp2
      have hp3 : p ∈ pushedStates s0 es := by
        unfold takeLast at hp2
        exact List.drop_subset _ _ hp2
      exact pushedStates_budget_le es s0 hb0 hes p hp3
    rw [hstep]
    exact handleRedo_handleUndo L _ hne hbudget hall



/-- Witness for C7 at a concrete input: budget ceiling 100, two pushed edits,
one undo restores the live state recorded at the second push. -/
theorem undoRedo_law_witness :
    (1 : Nat) ≤ 1 ∧
    ((undoN false (some 100) 1 (runEdits ⟨[], [], 100, [], [], [], []⟩
        [⟨[], [], 90⟩, ⟨[], [], 80⟩])).nodes
      = ((pushedStates (⟨[], [], 100, [], [], [], []⟩ : CanvasState)
          [⟨[], [], 90⟩, ⟨[], [], 80⟩]).getD 1 dummySnap).nodes ∧
     (undoN false (some 100) 1 (runEdits ⟨[], [], 100, [], [], [], []⟩
        [⟨[], [], 90⟩, ⟨[], [], 80⟩])).beams
      = ((pushedStates (⟨[], [], 100, [], [], [], []⟩ : CanvasState)
          [⟨[], [], 90⟩, ⟨[], [], 80⟩]).getD 1 dummySnap).beams ∧
     (undoN false (some 100) 1 (runEdits ⟨[], [], 100, [], [], [], []⟩
        [⟨[], [], 90⟩, ⟨[], [], 80⟩])).budget
      = ((pushedStates (⟨[], [], 100, [], [], [], []⟩ : CanvasState)
          [⟨[], [], 90⟩, ⟨[], [], 80⟩]).getD 1 dummySnap).budget) :=
  ⟨le_refl 1,
    (undoRedo_law_spec 100 ⟨[], [], 100, [], [], [], []⟩ [⟨[], [], 90⟩, ⟨[], [], 80⟩] 1
      rfl (by norm_num)
      (by
        intro e he
        rcases List.mem_cons.mp he with rfl | he2
        · norm_num
        · rcases List.mem_cons.mp he2 with rfl | he3
          · norm_num
          · cases he3)
      (by norm_num)
      (by
        have hlen : (runEdits (⟨[], [], 100, [], [], [], []⟩ : CanvasState)
            [⟨[], [], 90⟩, ⟨[], [], 80⟩]).history.length = 2 := rfl
        omega)).1⟩


end Bridgecraft
